import Mathlib

/-!
Shallow embedding of the training-orchestration layer in
`pretrain_gpt.py` (Megatron-FlexTrain): batch construction with
sequence-parallel slicing, the curriculum reshape transform, the
FlexTrain stage decomposition of the GPT forward pass, and the loss
aggregation, together with theorems settling the specification claims.

Conventions: tensors are lists of rows (row-major); token ids are `ℤ`
(torch int64), position ids are `ℕ`, floating-point values are
modelled as `ℚ`.  A floating-point NaN arising from `0 / 0` is
modelled with `Option`: a `none` result is a NaN.  Fallible code
(a failed `assert`) returns `Option`, `none` being the raised error.
-/

namespace PretrainGpt

/-- Matrix given as a list of rows of entries. -/
abbrev Mat (α : Type) : Type := List (List α)

/-- Column slice `m[:, start:start+len]` of a row-matrix. -/
def sliceCols {α : Type} (start len : ℕ) (m : Mat α) : Mat α :=
  m.map (fun row => (row.drop start).take len)

/-- Modelled from the spec: `get_ltor_masks_and_position_ids` (the
external mask-builder in `megatron.utils`, not under `src/`),
restricted to `reset_position_ids`, `reset_attention_mask` and
`eod_mask_loss` all false: the attention mask is the causal boolean
matrix over the sequence axis (`True` above the diagonal, i.e. at the
masked positions; the two leading broadcast axes of size 1 are
dropped), the loss mask is all ones of the shape of `tokens`, and the
position ids of every row are `0, 1, ..., seq-1`.
Returns `(attention_mask, loss_mask, position_ids)`. -/
def get_ltor_masks_and_position_ids (tokens : Mat ℤ) :
    Mat Bool × Mat ℚ × Mat ℕ :=
  let seq := (tokens.headD []).length
  ((List.range seq).map (fun i => (List.range seq).map (fun j => decide (i < j))),
   tokens.map (fun row => row.map (fun _ => (1 : ℚ))),
   tokens.map (fun _ => List.range seq))

/-- Configuration read by `get_batch` for sequence parallelism:
the flag `args.sequence_parallel` plus the sizes and ranks answered by
the (external) `mpu` group queries.  `dsWorldSize` and `dsRank` are
`mpu.get_sequence_parallel_world_size()` / `..._rank()` (the dedicated
DeepSpeed sequence-parallel group); `tpWorldSize` and `tpRank` are
`mpu.get_tensor_model_parallel_world_size()` / `..._rank()`. -/
structure SeqParArgs where
  sequence_parallel : Bool
  dsWorldSize : ℕ
  dsRank : ℕ
  tpWorldSize : ℕ
  tpRank : ℕ

/-- Effective sequence-parallel world size used by `get_batch`
(lines 346-352): the tensor-parallel size when
`args.sequence_parallel` is set, the dedicated group size otherwise. -/
def SeqParArgs.effWorldSize (a : SeqParArgs) : ℕ :=
  if a.sequence_parallel then a.tpWorldSize else a.dsWorldSize

/-- Effective sequence-parallel rank used by `get_batch`. -/
def SeqParArgs.effRank (a : SeqParArgs) : ℕ :=
  if a.sequence_parallel then a.tpRank else a.dsRank

/-- Embedding of `get_batch` (lines 314-366).  The broadcast of the
raw data is external and value-preserving; `tokens_` is the
broadcast `data_b['text']` matrix.  The failing `assert seq_length %
seq_parallel_world_size == 0` is modelled by returning `none`.
Returns `some (tokens, labels, loss_mask, attention_mask,
position_ids)` on success. -/
def get_batch (a : SeqParArgs) (tokens_ : Mat ℤ) :
    Option (Mat ℤ × Mat ℤ × Mat ℚ × Mat Bool × Mat ℕ) :=
  let labels := tokens_.map (fun row => row.drop 1)
  let tokens := tokens_.map (fun row => row.dropLast)
  let masks := get_ltor_masks_and_position_ids tokens
  let attention_mask := masks.1
  let loss_mask := masks.2.1
  let position_ids := masks.2.2
  let seq_length := (tokens.headD []).length
  if seq_length % a.effWorldSize = 0 then
    let sub_seq_length := seq_length / a.effWorldSize
    let sub_seq_start := a.effRank * sub_seq_length
    let tokens := sliceCols sub_seq_start sub_seq_length tokens
    let position_ids := sliceCols sub_seq_start sub_seq_length position_ids
    let labels :=
      if 1 < a.dsWorldSize then sliceCols sub_seq_start sub_seq_length labels
      else labels
    some (tokens, labels, loss_mask, attention_mask, position_ids)
  else
    none

/-- Embedding of the `seqlen_reshape` branch of `data_post_process`
(lines 376-388), reached when `args.data_efficiency_curriculum_learning`
holds and the current difficulties contain `seqlen_reshape`.
`seq_length` is `args.seq_length`, `current_seqlen` the scheduled
difficulty, `text` the `data['text']` token matrix.  `torch.numel` is
the total entry count, `math.ceil(a / b)` on naturals is
`(a + b - 1) / b`, and the trailing slice `[:, -(current_seqlen+1):]`
keeps the last `current_seqlen+1` entries of every row. -/
def data_post_process_reshape (seq_length current_seqlen : ℕ) (text : Mat ℤ) :
    Mat ℤ :=
  if current_seqlen < seq_length then
    let d := current_seqlen + 1
    let orig_num_token := (text.map List.length).sum
    let cols := (text.headD []).length
    let reshape_len := cols / d * d
    let flat := (text.map (fun row => row.take reshape_len)).flatten
    let reshaped := (List.range (flat.length / d)).map
      (fun i => (flat.drop (i * d)).take d)
    let tailRows := text.map (fun row => row.drop (row.length - d))
    let newText := reshaped ++ tailRows
    let num_row := min ((orig_num_token + d - 1) / d) newText.length
    let num_row := if 1 < num_row ∧ num_row % 2 ≠ 0 then num_row - 1 else num_row
    newText.take num_row
  else text

/-- Configuration fields of `args` read by the loss path:
the distillation flags `args.mos` and `args.kd`, the value of
`max(args.num_experts)` and the coefficient `args.moe_loss_coeff`. -/
structure LossArgs where
  mos : Bool
  kd : Bool
  num_experts_max : ℕ
  moe_loss_coeff : ℚ

/-- Embedding of `loss_func` (lines 429-450).  `output_tensor` holds
the per-token loss values; both it and `loss_mask` are flattened
(`view(-1)`).  `average_losses_across_data_parallel_group` is an
external all-reduce, modelled as the identity (a data-parallel group
of size 1).  The first component of the result is the loss used for
backpropagation (`none` models a NaN from a zero mask sum), the second
the reported metrics map as an association list. -/
def loss_func (a : LossArgs) (loss_mask : Mat ℚ) (moe_loss mos_loss : ℚ)
    (output_tensor : Mat ℚ) : Option ℚ × List (String × Option ℚ) :=
  let losses := output_tensor.flatten
  let mask := loss_mask.flatten
  let loss : Option ℚ :=
    if mask.sum = 0 then none
    else some ((List.zipWith (fun x y => x * y) losses mask).sum / mask.sum)
  let averaged_loss := loss
  if a.mos ∨ a.kd then
    let loss := loss.map (fun l => l + moe_loss + mos_loss)
    if a.mos then
      (loss, [("total loss", loss), ("lm loss", averaged_loss),
              ("moe loss", some moe_loss), ("mos loss", some mos_loss)])
    else
      (loss, [("total loss", loss), ("lm loss", averaged_loss),
              ("moe loss", some moe_loss), ("kd loss", some mos_loss)])
  else
    if a.num_experts_max ≤ 1 then
      (loss, [("lm loss", averaged_loss)])
    else
      let loss := loss.map (fun l => l + moe_loss)
      (loss, [("lm loss", averaged_loss), ("moe loss", some moe_loss)])

/-- Embedding of `flextrain_loss_func` (lines 186-220).
`model_output` is the pair `(output_tensor, other_losses)`;
`loss_mask` is `loss_inputs[0]`, the sole entry of the loss-input
tuple.  The non-null auxiliary losses are collected by the source's
append loop, summed, scaled by `args.moe_loss_coeff`, and passed to
`loss_func` together with the zero `mos_loss` placeholder. -/
def flextrain_loss_func (a : LossArgs)
    (model_output : Mat ℚ × List (Option ℚ)) (loss_mask : Mat ℚ) :
    Option ℚ × List (String × Option ℚ) :=
  let output_tensor := model_output.1
  let other_losses := model_output.2
  let moe_losses := other_losses.foldl
    (fun acc ml => match ml with | some v => acc ++ [v] | none => acc) []
  let moe_loss := moe_losses.sum * a.moe_loss_coeff
  let mos_loss : ℚ := 0
  loss_func a loss_mask moe_loss mos_loss output_tensor

/-- Interface of one transformer layer as consumed by this file
(spec §6): a layer takes `(hidden_states, attention_mask)` and returns
either `hidden_states` alone — modelled by a `none` second
component — or a tuple `(hidden_states, auxiliary_loss_or_none)` —
modelled by `some` of the (possibly null) auxiliary loss. -/
structure TLayer (H M : Type) where
  apply : H → M → H × Option (Option ℚ)

/-- Interface of the GPT model as consumed by the stage decomposition
(spec §6): an opaque embedding, the ordered list
`model.language_model.encoder.layers`, the final layer norm, and the
post-processing head (`post_language_model_processing`, with the tied
word-embedding weight, `parallel_output` and `fp16_lm_cross_entropy`
folded into the opaque callable).  `H` is the hidden-state type, `M`
the attention-mask type; with labels supplied the head produces the
per-token cross-entropy loss matrix. -/
structure GPTModelM (H M : Type) where
  embedding : Mat ℤ → Mat ℕ → H
  layers : List (TLayer H M)
  final_layernorm : H → H
  postLM : H → Mat ℤ → Mat ℚ

/-- Embedding of `pre_process_func` (lines 62-93);
`utils.make_viewless_tensor` is value-preserving and modelled as the
identity.  Returns `((hidden_states, []), (attention_mask,))` with the
singleton second tuple flattened to its sole component. -/
def pre_process_func {H M : Type} (m : GPTModelM H M) (input_ids : Mat ℤ)
    (position_ids : Mat ℕ) (attention_mask : M) :
    (H × List (Option ℚ)) × M :=
  ((m.embedding input_ids position_ids, []), attention_mask)

/-- One iteration of the loop in the callable built by `custom_forward`
(lines 128-142): the layer output is unpacked to `(x, moe_loss)` when
it is a tuple; otherwise the output is the new hidden state and a
zero-valued scalar is substituted for the auxiliary loss. -/
def layer_output_aux {H M : Type} (l : TLayer H M) (x : H)
    (attention_mask : M) : H × Option ℚ :=
  match l.apply x attention_mask with
  | (x', some moe_loss) => (x', moe_loss)
  | (x', none) => (x', some 0)

/-- Embedding of the callable returned by `custom_forward model start
end` (lines 110-145): iterate the layers with indices in
`[start, endIdx)` — in range when `endIdx ≤ layers.length`, as the
caller guarantees — threading the hidden state and appending one
auxiliary-loss entry per traversed layer. -/
def custom_forward {H M : Type} (m : GPTModelM H M) (start endIdx : ℕ)
    (x : H) (moe_losses : List (Option ℚ)) (attention_mask : M) :
    H × List (Option ℚ) :=
  ((m.layers.drop start).take (endIdx - start)).foldl
    (fun acc l =>
      let r := layer_output_aux l acc.1 attention_mask
      (r.1, acc.2 ++ [r.2]))
    (x, moe_losses)

/-- Embedding of `post_process_func` (lines 148-183): final layer norm
followed by `post_language_model_processing`; the auxiliary-loss list
is passed through unchanged. -/
def post_process_func {H M : Type} (m : GPTModelM H M)
    (passed_down : H × List (Option ℚ)) (labels : Mat ℤ) :
    Mat ℚ × List (Option ℚ) :=
  (m.postLM (m.final_layernorm passed_down.1) labels, passed_down.2)

/-- Companion recursion describing the auxiliary-loss accumulation of
`custom_forward` over a layer list: one entry per layer in order, with
`some 0` substituted (by `layer_output_aux`) when a layer returns a
bare tensor. -/
def runLayers {H M : Type} (attention_mask : M) :
    List (TLayer H M) → H → H × List (Option ℚ)
  | [], x => (x, [])
  | l :: ls, x =>
    let p := layer_output_aux l x attention_mask
    let r := runLayers attention_mask ls p.1
    (r.1, p.2 :: r.2)

/-- Companion recursion for the monolithic forward: each layer
contributes its reported auxiliary loss, flattened to a null entry
when the layer reports none. -/
def collectLayers {H M : Type} (attention_mask : M) :
    List (TLayer H M) → H → H × List (Option ℚ)
  | [], x => (x, [])
  | l :: ls, x =>
    let p := l.apply x attention_mask
    let r := collectLayers attention_mask ls p.1
    (r.1, p.2.join :: r.2)

/-- Modelled from the spec: the monolithic `GPTModel.forward` (in
`megatron.model.gpt_model`, not under `src/`) as invoked by
`forward_step` with labels — the embedding, the ordered layer stack
(each traversed layer contributing its reported auxiliary loss, or a
null entry when it reports none), the final layer norm, and
`post_language_model_processing`.  Returns
`(output_tensor, other_losses)`. -/
def gpt_model_forward {H M : Type} (m : GPTModelM H M) (tokens : Mat ℤ)
    (position_ids : Mat ℕ) (attention_mask : M) (labels : Mat ℤ) :
    Mat ℚ × List (Option ℚ) :=
  let r := m.layers.foldl
    (fun acc l =>
      let p := l.apply acc.1 attention_mask
      (p.1, acc.2 ++ [p.2.join]))
    (m.embedding tokens position_ids, ([] : List (Option ℚ)))
  (m.postLM (m.final_layernorm r.1) labels, r.2)

/-- Embedding of the loss-mask truncation in `forward_step`
(lines 505-506): applied when the legacy curriculum flag is active and
`args.curriculum_seqlen` is below `args.seq_length`. -/
def forward_step_loss_mask (legacy : Bool)
    (curriculum_seqlen seq_length : ℕ) (loss_mask : Mat ℚ) : Mat ℚ :=
  if legacy ∧ curriculum_seqlen < seq_length
  then loss_mask.map (List.take curriculum_seqlen) else loss_mask

/-- Embedding of the labels truncation in `forward_step`
(lines 495-500): applied inside the distillation branch
(`args.mos or args.kd`) only, under the same legacy-curriculum guard. -/
def forward_step_labels (mos kd legacy : Bool)
    (curriculum_seqlen seq_length : ℕ) (labels : Mat ℤ) : Mat ℤ :=
  if (mos ∨ kd) ∧ legacy ∧ curriculum_seqlen < seq_length
  then labels.map (List.take curriculum_seqlen) else labels

/-- Embedding of `forward_step` on the non-distillation path
(`args.mos` and `args.kd` false; lines 502-512 and 522, including the
legacy-curriculum truncation of the loss mask of lines 505-506): call
the model with labels, truncate the consumed loss mask under the
legacy curriculum, sum the non-null auxiliary losses scaled by
`args.moe_loss_coeff`, and delegate to `loss_func` with a zero
distillation loss. -/
def forward_step_loss {H M : Type} (a : LossArgs) (legacy : Bool)
    (curriculum_seqlen seq_length : ℕ) (m : GPTModelM H M)
    (tokens : Mat ℤ) (position_ids : Mat ℕ) (attention_mask : M)
    (labels : Mat ℤ) (loss_mask : Mat ℚ) :
    Option ℚ × List (String × Option ℚ) :=
  let r := gpt_model_forward m tokens position_ids attention_mask labels
  let output_tensor := r.1
  let other_losses := r.2
  let loss_mask := forward_step_loss_mask legacy curriculum_seqlen seq_length loss_mask
  let moe_losses := other_losses.foldl
    (fun acc ml => match ml with | some v => acc ++ [v] | none => acc) []
  let moe_loss := moe_losses.sum * a.moe_loss_coeff
  let mos_loss : ℚ := 0
  loss_func a loss_mask moe_loss mos_loss output_tensor

/-- Embedding of the input truncation of `calculate_mos_loss`
(lines 458-466), the part preceding the external teacher forward and
KL computation: under the legacy-curriculum guard, tokens and position
ids are truncated to the curriculum length and the attention mask is
truncated on both of its last two axes
(`attention_mask[:, :, :cs, :cs]`, its leading broadcast axes
dropped). -/
def calculate_mos_loss_inputs (legacy : Bool)
    (curriculum_seqlen seq_length : ℕ) (tokens : Mat ℤ)
    (position_ids : Mat ℕ) (attention_mask : Mat Bool) :
    Mat ℤ × Mat ℕ × Mat Bool :=
  if legacy ∧ curriculum_seqlen < seq_length then
    (tokens.map (List.take curriculum_seqlen),
     position_ids.map (List.take curriculum_seqlen),
     (attention_mask.take curriculum_seqlen).map (List.take curriculum_seqlen))
  else (tokens, position_ids, attention_mask)

/-- Embedding of `get_batch_pipe` (lines 393-426); the mask builder is
the spec-modelled `get_ltor_masks_and_position_ids`.  The truncation
guard compares `args.curriculum_seqlen` with `tokens.size()[1]`.
Returns `((tokens, position_ids, attention_mask), (labels,
loss_mask))`. -/
def get_batch_pipe (legacy : Bool) (curriculum_seqlen : ℕ)
    (tokens_ : Mat ℤ) :
    (Mat ℤ × Mat ℕ × Mat Bool) × (Mat ℤ × Mat ℚ) :=
  let labels := tokens_.map (fun row => row.drop 1)
  let tokens := tokens_.map (fun row => row.dropLast)
  let masks := get_ltor_masks_and_position_ids tokens
  let attention_mask := masks.1
  let loss_mask := masks.2.1
  let position_ids := masks.2.2
  if legacy ∧ curriculum_seqlen < (tokens.headD []).length then
    ((tokens.map (List.take curriculum_seqlen),
      position_ids.map (List.take curriculum_seqlen), attention_mask),
     (labels.map (List.take curriculum_seqlen),
      loss_mask.map (List.take curriculum_seqlen)))
  else ((tokens, position_ids, attention_mask), (labels, loss_mask))


/-! ## Helper lemmas -/

/-- The source's append loop collecting the non-null auxiliary losses
equals `filterMap id`. -/
theorem moe_collect_eq_filterMap (ls : List (Option ℚ)) :
    ∀ init : List ℚ,
      ls.foldl (fun acc ml => match ml with | some v => acc ++ [v] | none => acc) init
        = init ++ ls.filterMap id := by
  induction ls with
  | nil => intro init; simp
  | cons o ls ih =>
    intro init
    cases o with
    | none => simpa using ih init
    | some v =>
      simpa [List.append_assoc] using ih (init ++ [v])

/-- Concatenating the `k` contiguous chunks of width `sub` of a list
restores its prefix of length `k * sub`. -/
theorem flatten_range_chunks {α : Type} (t : List α) (sub : ℕ) (k : ℕ) :
    ((List.range k).map (fun r => (t.drop (r * sub)).take sub)).flatten
      = t.take (k * sub) := by
  induction k with
  | zero => simp
  | succ k ih =>
    rw [List.range_succ, List.map_append, List.flatten_append, ih]
    simp [Nat.succ_mul, List.take_add]

/-- Sum of the row lengths of a matrix whose rows all have length `d`. -/
theorem sum_map_length_eq {α : Type} (l : List (List α)) (d : ℕ)
    (h : ∀ r ∈ l, r.length = d) : (l.map List.length).sum = l.length * d := by
  induction l with
  | nil => simp
  | cons r l ih =>
    have hr : r.length = d := h r (by simp)
    have hl : ∀ s ∈ l, s.length = d := fun s hs => h s (by simp [hs])
    simp [ih hl, hr, Nat.succ_mul, Nat.add_comm]

/-- Pointwise product with an all-ones list of matching length. -/
theorem zipWith_mul_replicate_one (l : List ℚ) :
    List.zipWith (fun x y => x * y) l (List.replicate l.length 1) = l := by
  induction l with
  | nil => rfl
  | cons x l ih => simp [List.replicate_succ, ih]

/-! ## C10: the FlexTrain loss stage delegates to the loss aggregator -/

/-- C10: for every model-output pair `(output_tensor, other_losses)`
and loss-input tuple, `flextrain_loss_func` returns exactly
`loss_func(loss_inputs[0], sum of the non-None entries of
other_losses * moe_loss_coeff, 0.0, output_tensor)`; in particular the
distillation-loss argument on the staged path is the literal zero,
whatever the `mos`/`kd` configuration. -/
theorem flextrain_loss_func_delegates (a : LossArgs) (output_tensor : Mat ℚ)
    (other_losses : List (Option ℚ)) (loss_mask : Mat ℚ) :
    flextrain_loss_func a (output_tensor, other_losses) loss_mask
      = loss_func a loss_mask ((other_losses.filterMap id).sum * a.moe_loss_coeff)
          0 output_tensor := by
  simp [flextrain_loss_func, moe_collect_eq_filterMap]

/-! ## C5: the metrics key set of the loss aggregator -/

/-- C5 counterexample: with distillation on (`mos = True`) and
`max(num_experts) = 1` — no mixture-of-experts layer configured, so
the load-balancing auxiliary loss cannot be active — the metrics map
returned by `loss_func` still contains the key `moe loss`, refuting
the claim that `moe loss` appears only when the auxiliary loss is
active. -/
theorem loss_func_moe_key_counterexample :
    ("moe loss" ∈ ((loss_func ⟨true, false, 1, 1⟩ [[1]] 0 0 [[1]]).2).map Prod.fst)
    ∧ (⟨true, false, 1, 1⟩ : LossArgs).num_experts_max ≤ 1 := by
  decide

/-- C5 (amended): the metrics map always contains `lm loss`; it
contains `total loss` exactly in distillation mode (`mos` or `kd`);
`mos loss` exactly when `mos`; `kd loss` exactly when `kd` and not
`mos`; and `moe loss` exactly when distillation mode is on or
`max(num_experts) > 1`.  With no distillation and
`max(num_experts) <= 1` the metrics map is exactly `{lm loss}`. -/
theorem loss_func_metrics_keys (a : LossArgs) (loss_mask : Mat ℚ)
    (moe_loss mos_loss : ℚ) (output_tensor : Mat ℚ) :
    ("lm loss" ∈ ((loss_func a loss_mask moe_loss mos_loss output_tensor).2).map Prod.fst)
    ∧ (("total loss" ∈ ((loss_func a loss_mask moe_loss mos_loss output_tensor).2).map Prod.fst)
        ↔ (a.mos = true ∨ a.kd = true))
    ∧ (("mos loss" ∈ ((loss_func a loss_mask moe_loss mos_loss output_tensor).2).map Prod.fst)
        ↔ a.mos = true)
    ∧ (("kd loss" ∈ ((loss_func a loss_mask moe_loss mos_loss output_tensor).2).map Prod.fst)
        ↔ (a.kd = true ∧ a.mos = false))
    ∧ (("moe loss" ∈ ((loss_func a loss_mask moe_loss mos_loss output_tensor).2).map Prod.fst)
        ↔ (a.mos = true ∨ a.kd = true ∨ 1 < a.num_experts_max))
    ∧ ((a.mos = false ∧ a.kd = false ∧ a.num_experts_max ≤ 1) →
        ((loss_func a loss_mask moe_loss mos_loss output_tensor).2).map Prod.fst
          = ["lm loss"]) := by
  rcases a with ⟨mos, kd, ne, coeff⟩
  cases mos <;> cases kd <;>
    by_cases h : ne ≤ 1 <;>
      simp [loss_func, h] <;> omega

/-- Witness for `loss_func_metrics_keys` at a concrete input. -/
theorem loss_func_metrics_keys_witness :
    ("lm loss" ∈ ((loss_func ⟨false, false, 1, 1⟩ [[1]] 0 0 [[1]]).2).map Prod.fst)
    ∧ (("total loss" ∈ ((loss_func ⟨false, false, 1, 1⟩ [[1]] 0 0 [[1]]).2).map Prod.fst)
        ↔ ((false : Bool) = true ∨ (false : Bool) = true))
    ∧ (("mos loss" ∈ ((loss_func ⟨false, false, 1, 1⟩ [[1]] 0 0 [[1]]).2).map Prod.fst)
        ↔ (false : Bool) = true)
    ∧ (("kd loss" ∈ ((loss_func ⟨false, false, 1, 1⟩ [[1]] 0 0 [[1]]).2).map Prod.fst)
        ↔ ((false : Bool) = true ∧ (false : Bool) = false))
    ∧ (("moe loss" ∈ ((loss_func ⟨false, false, 1, 1⟩ [[1]] 0 0 [[1]]).2).map Prod.fst)
        ↔ ((false : Bool) = true ∨ (false : Bool) = true ∨ 1 < 1))
    ∧ (((false : Bool) = false ∧ (false : Bool) = false ∧ 1 ≤ 1) →
        ((loss_func ⟨false, false, 1, 1⟩ [[1]] 0 0 [[1]]).2).map Prod.fst
          = ["lm loss"]) :=
  loss_func_metrics_keys ⟨false, false, 1, 1⟩ [[1]] 0 0 [[1]]

/-! ## C3: the primary loss computed by the loss aggregator -/

/-- C3: in the default configuration the primary loss returned by
`loss_func` is `sum(output * loss_mask) / sum(loss_mask)` over the
flattened views; with an all-ones mask over `N > 0` tokens and
per-token losses summing to `S` it is exactly `S / N`; and with a zero
mask sum the result is the NaN of the division by zero (`none`),
returned to the caller rather than caught or special-cased. -/
theorem loss_func_primary (a : LossArgs) (loss_mask : Mat ℚ)
    (moe_loss mos_loss : ℚ) (output_tensor : Mat ℚ) (N : ℕ)
    (hmos : a.mos = false) (hkd : a.kd = false)
    (hexp : a.num_experts_max ≤ 1) :
    (loss_mask.flatten.sum ≠ 0 →
       (loss_func a loss_mask moe_loss mos_loss output_tensor).1
         = some ((List.zipWith (fun x y => x * y) output_tensor.flatten
             loss_mask.flatten).sum / loss_mask.flatten.sum))
    ∧ (loss_mask.flatten = List.replicate N 1 →
       output_tensor.flatten.length = N → 0 < N →
       (loss_func a loss_mask moe_loss mos_loss output_tensor).1
         = some (output_tensor.flatten.sum / (N : ℚ)))
    ∧ (loss_mask.flatten.sum = 0 →
       (loss_func a loss_mask moe_loss mos_loss output_tensor).1 = none) := by
  have hbranch : ∀ x : Option ℚ,
      (loss_func a loss_mask moe_loss mos_loss output_tensor).1
        = if loss_mask.flatten.sum = 0 then none
          else some ((List.zipWith (fun x y => x * y) output_tensor.flatten
              loss_mask.flatten).sum / loss_mask.flatten.sum) := by
    intro _
    simp [loss_func, hmos, hkd, hexp]
  refine ⟨?_, ?_, ?_⟩
  · intro h
    rw [hbranch none, if_neg h]
  · intro hmask hlen hN
    have hsum : loss_mask.flatten.sum = (N : ℚ) := by
      rw [hmask]; simp [List.sum_replicate]
    have hne : loss_mask.flatten.sum ≠ 0 := by
      rw [hsum]
      exact Nat.cast_ne_zero.mpr hN.ne'
    rw [hbranch none, if_neg hne, hsum, hmask, ← hlen, zipWith_mul_replicate_one]
  · intro h
    rw [hbranch none, if_pos h]

/-- Witness for `loss_func_primary`: all-ones mask over two tokens and
per-token losses `3` and `4` give primary loss `7/2`; a zero mask
gives `none`. -/
theorem loss_func_primary_witness :
    ((⟨false, false, 1, 0⟩ : LossArgs).mos = false
      ∧ (⟨false, false, 1, 0⟩ : LossArgs).kd = false
      ∧ (⟨false, false, 1, 0⟩ : LossArgs).num_experts_max ≤ 1)
    ∧ ((([[1, 1]] : Mat ℚ).flatten.sum ≠ 0 →
         (loss_func ⟨false, false, 1, 0⟩ [[1, 1]] 0 0 [[3, 4]]).1
           = some ((List.zipWith (fun x y => x * y) ([[3, 4]] : Mat ℚ).flatten
               ([[1, 1]] : Mat ℚ).flatten).sum / ([[1, 1]] : Mat ℚ).flatten.sum))
       ∧ (([[1, 1]] : Mat ℚ).flatten = List.replicate 2 1 →
          ([[3, 4]] : Mat ℚ).flatten.length = 2 → 0 < 2 →
          (loss_func ⟨false, false, 1, 0⟩ [[1, 1]] 0 0 [[3, 4]]).1
            = some (([[3, 4]] : Mat ℚ).flatten.sum / (2 : ℚ)))
       ∧ (([[1, 1]] : Mat ℚ).flatten.sum = 0 →
          (loss_func ⟨false, false, 1, 0⟩ [[1, 1]] 0 0 [[3, 4]]).1 = none)) :=
  ⟨⟨rfl, rfl, by decide⟩,
   loss_func_primary ⟨false, false, 1, 0⟩ [[1, 1]] 0 0 [[3, 4]] 2 rfl rfl (by decide)⟩

/-! ## C4: shape of the curriculum reshape transform -/

/-- C4 counterexample: for the single-row batch `[[0,1,2,3,4]]` with
`args.seq_length = 4` and `current_seqlen = 2`, the reshape branch
produces `[[0,1,2],[2,3,4]]` — 6 token entries out of an original 5,
because the trailing window `[:, -(current_seqlen+1):]` overlaps the
reshaped prefix.  This refutes the claim that the output never holds
more token entries than the input. -/
theorem data_post_process_reshape_counterexample :
    data_post_process_reshape 4 2 [[0, 1, 2, 3, 4]] = [[0, 1, 2], [2, 3, 4]]
    ∧ ((data_post_process_reshape 4 2 [[0, 1, 2, 3, 4]]).map List.length).sum = 6
    ∧ (([[0, 1, 2, 3, 4]] : Mat ℤ).map List.length).sum = 5
    ∧ ¬ ((data_post_process_reshape 4 2 [[0, 1, 2, 3, 4]]).map List.length).sum
        ≤ (([[0, 1, 2, 3, 4]] : Mat ℤ).map List.length).sum := by
  decide

/-- C4 (amended): in reshape mode with `current_seqlen` below the
configured maximum, every output row has exactly `current_seqlen + 1`
columns and the output row count is even whenever it exceeds 1; the
total number of token entries is less than the original total plus
`current_seqlen + 1` (it can exceed the original total by up to
`current_seqlen` duplicated entries, but no more). -/
theorem data_post_process_reshape_shape (seq_length current_seqlen : ℕ)
    (text : Mat ℤ) (hcs : current_seqlen < seq_length)
    (hrect : ∀ row ∈ text, row.length = seq_length + 1) :
    (∀ row ∈ data_post_process_reshape seq_length current_seqlen text,
       row.length = current_seqlen + 1)
    ∧ (1 < (data_post_process_reshape seq_length current_seqlen text).length →
       (data_post_process_reshape seq_length current_seqlen text).length % 2 = 0)
    ∧ ((data_post_process_reshape seq_length current_seqlen text).map List.length).sum
        < (text.map List.length).sum + (current_seqlen + 1) := by
  set d := current_seqlen + 1 with hd
  set q := (text.map List.length).sum with hq
  set cols := (text.headD []).length with hcols
  set reshape_len := cols / d * d with hrl
  set flat := (text.map (fun row => row.take reshape_len)).flatten with hflat
  set reshaped := (List.range (flat.length / d)).map
      (fun i => (flat.drop (i * d)).take d) with hresh
  set tailRows := text.map (fun row => row.drop (row.length - d)) with htail
  set newText := reshaped ++ tailRows with hnew
  set n0 := min ((q + d - 1) / d) newText.length with hn0
  set n1 := (if 1 < n0 ∧ n0 % 2 ≠ 0 then n0 - 1 else n0) with hn1
  have hout : data_post_process_reshape seq_length current_seqlen text
      = newText.take n1 := by
    rw [data_post_process_reshape, if_pos hcs]
  -- every row of newText has length d
  have hrows : ∀ row ∈ newText, row.length = d := by
    intro row hrow
    rw [hnew] at hrow
    rcases List.mem_append.mp hrow with hmem | hmem
    · rw [hresh] at hmem
      rcases List.mem_map.mp hmem with ⟨i, hi, hrow'⟩
      have hi' : i < flat.length / d := List.mem_range.mp hi
      have hid : (i + 1) * d ≤ flat.length / d * d :=
        Nat.mul_le_mul_right d hi'
      have hfl : flat.length / d * d ≤ flat.length := Nat.div_mul_le_self _ _
      have : i * d + d ≤ flat.length := by
        have := le_trans hid hfl
        rwa [Nat.succ_mul] at this
      rw [← hrow']
      simp only [List.length_take, List.length_drop]
      omega
    · rw [htail] at hmem
      rcases List.mem_map.mp hmem with ⟨r, hr, hrow'⟩
      have hlen : r.length = seq_length + 1 := hrect r hr
      rw [← hrow']
      simp only [List.length_drop]
      omega
  have hlen_out : (data_post_process_reshape seq_length current_seqlen text).length
      = min n1 newText.length := by
    rw [hout, List.length_take]
  have hn1_le : n1 ≤ n0 := by
    rw [hn1]; split <;> omega
  have hn0_le : n0 ≤ newText.length := by
    rw [hn0]; exact Nat.min_le_right _ _
  have hout_len : (data_post_process_reshape seq_length current_seqlen text).length = n1 := by
    rw [hlen_out]; omega
  refine ⟨?_, ?_, ?_⟩
  · intro row hrow
    rw [hout] at hrow
    exact hrows row (List.mem_of_mem_take hrow)
  · intro hgt
    rw [hout_len] at hgt ⊢
    rw [hn1] at hgt ⊢
    by_cases hcond : 1 < n0 ∧ n0 % 2 ≠ 0
    · rw [if_pos hcond] at hgt ⊢
      omega
    · rw [if_neg hcond] at hgt ⊢
      omega
  · have hall : ∀ row ∈ data_post_process_reshape seq_length current_seqlen text,
        row.length = d := by
      intro row hrow
      rw [hout] at hrow
      exact hrows row (List.mem_of_mem_take hrow)
    rw [sum_map_length_eq _ d hall, hout_len]
    have hceil : n0 ≤ (q + d - 1) / d := by
      rw [hn0]; exact Nat.min_le_left _ _
    have hdm : (q + d - 1) / d * d ≤ q + d - 1 := Nat.div_mul_le_self _ _
    have hmul : n1 * d ≤ (q + d - 1) / d * d :=
      Nat.mul_le_mul_right d (le_trans hn1_le hceil)
    omega

/-- A map by a function that fixes every element of the list is the
identity. -/
theorem map_eq_self_of {α : Type} (l : List α) (f : α → α)
    (h : ∀ x ∈ l, f x = x) : l.map f = l := by
  induction l with
  | nil => rfl
  | cons x l ih =>
    simp only [List.map_cons, h x (by simp), List.cons.injEq, true_and]
    exact ih (fun y hy => h y (by simp [hy]))

/-- Closed form of a successful `get_batch` call: with rectangular
raw data of width `seq + 1` and `seq` divisible by the effective
sequence-parallel world size, the call returns the sliced tokens and
position ids, the labels (sliced only when the dedicated group has
more than one rank), and the untouched masks. -/
theorem get_batch_eq_some (a : SeqParArgs) (seq : ℕ) (tokens_ : Mat ℤ)
    (hne : tokens_ ≠ [])
    (hrect : ∀ row ∈ tokens_, row.length = seq + 1)
    (hmod : seq % a.effWorldSize = 0) :
    get_batch a tokens_ = some
      (sliceCols (a.effRank * (seq / a.effWorldSize)) (seq / a.effWorldSize)
         (tokens_.map (fun row => row.dropLast)),
       (if 1 < a.dsWorldSize then
          sliceCols (a.effRank * (seq / a.effWorldSize)) (seq / a.effWorldSize)
            (tokens_.map (fun row => row.drop 1))
        else tokens_.map (fun row => row.drop 1)),
       (tokens_.map (fun row => row.dropLast)).map (fun row => row.map (fun _ => (1 : ℚ))),
       (List.range seq).map (fun i => (List.range seq).map (fun j => decide (i < j))),
       sliceCols (a.effRank * (seq / a.effWorldSize)) (seq / a.effWorldSize)
         ((tokens_.map (fun row => row.dropLast)).map (fun _ => List.range seq))) := by
  have hseq : ((tokens_.map (fun row => row.dropLast)).headD []).length = seq := by
    cases tokens_ with
    | nil => exact absurd rfl hne
    | cons t ts =>
      have ht := hrect t (by simp)
      simp [List.length_dropLast, ht]
  simp only [get_batch, get_ltor_masks_and_position_ids, hseq]
  rw [if_pos hmod]

/-! ## C9: the divisibility precondition of `get_batch` -/

/-- C9: for a nonempty batch of post-split sequence length `seq`,
`get_batch` fails (its `assert`, modelled as `none`) exactly when
`seq` is not divisible by the effective sequence-parallel world size,
and succeeds otherwise. -/
theorem get_batch_seq_divisibility (a : SeqParArgs) (seq : ℕ) (tokens_ : Mat ℤ)
    (hne : tokens_ ≠ [])
    (hrect : ∀ row ∈ tokens_, row.length = seq + 1) :
    (seq % a.effWorldSize ≠ 0 → get_batch a tokens_ = none)
    ∧ (seq % a.effWorldSize = 0 → (get_batch a tokens_).isSome = true) := by
  have hseq : ((tokens_.map (fun row => row.dropLast)).headD []).length = seq := by
    cases tokens_ with
    | nil => exact absurd rfl hne
    | cons t ts =>
      have ht := hrect t (by simp)
      simp [List.length_dropLast, ht]
  constructor
  · intro h
    simp only [get_batch, get_ltor_masks_and_position_ids, hseq]
    rw [if_neg h]
  · intro h
    rw [get_batch_eq_some a seq tokens_ hne hrect h]
    rfl

/-- Witness for `get_batch_seq_divisibility`: a batch of width 4
(post-split length 3) with a dedicated sequence-parallel group of
size 2 hits the failing precondition. -/
theorem get_batch_seq_divisibility_witness :
    (([[1, 2, 3, 4]] : Mat ℤ) ≠ []
      ∧ (∀ row ∈ ([[1, 2, 3, 4]] : Mat ℤ), row.length = 3 + 1))
    ∧ ((3 % (⟨false, 2, 0, 1, 0⟩ : SeqParArgs).effWorldSize ≠ 0 →
         get_batch ⟨false, 2, 0, 1, 0⟩ [[1, 2, 3, 4]] = none)
       ∧ (3 % (⟨false, 2, 0, 1, 0⟩ : SeqParArgs).effWorldSize = 0 →
         (get_batch ⟨false, 2, 0, 1, 0⟩ [[1, 2, 3, 4]]).isSome = true)) :=
  ⟨⟨by decide, by decide⟩,
   get_batch_seq_divisibility ⟨false, 2, 0, 1, 0⟩ 3 [[1, 2, 3, 4]]
     (by decide) (by decide)⟩

/-! ## C2: sequence-parallel slicing partitions the sequence axis -/

/-- C2: with `seq` divisible by the sequence-parallel world size `W`,
`get_batch` gives rank `r` the contiguous column range
`[r*seq/W, (r+1)*seq/W)` of `tokens` and `position_ids`, and
concatenating the `W` rank slices in rank order restores every row of
the unsliced `tokens` and `position_ids` exactly. -/
theorem get_batch_rank_slice_reconstruct (W r seq tp tpr : ℕ)
    (tokens_ : Mat ℤ) (hW : 1 ≤ W) (hr : r < W) (hmod : seq % W = 0)
    (hne : tokens_ ≠ [])
    (hrect : ∀ row ∈ tokens_, row.length = seq + 1) :
    ((get_batch ⟨false, W, r, tp, tpr⟩ tokens_).map (fun b => b.1)
       = some (sliceCols (r * (seq / W)) (seq / W)
           (tokens_.map (fun row => row.dropLast))))
    ∧ ((get_batch ⟨false, W, r, tp, tpr⟩ tokens_).map (fun b => b.2.2.2.2)
       = some (sliceCols (r * (seq / W)) (seq / W)
           ((tokens_.map (fun row => row.dropLast)).map (fun _ => List.range seq))))
    ∧ ((tokens_.map (fun row => row.dropLast)).map
         (fun row => ((List.range W).map
             (fun i => (row.drop (i * (seq / W))).take (seq / W))).flatten)
       = tokens_.map (fun row => row.dropLast))
    ∧ (((tokens_.map (fun row => row.dropLast)).map (fun _ => List.range seq)).map
         (fun row => ((List.range W).map
             (fun i => (row.drop (i * (seq / W))).take (seq / W))).flatten)
       = (tokens_.map (fun row => row.dropLast)).map (fun _ => List.range seq)) := by
  have hb := get_batch_eq_some ⟨false, W, r, tp, tpr⟩ seq tokens_ hne hrect hmod
  have hdvd : W ∣ seq := Nat.dvd_of_mod_eq_zero hmod
  have hws : W * (seq / W) = seq := Nat.mul_div_cancel' hdvd
  refine ⟨by rw [hb]; rfl, by rw [hb]; rfl, ?_, ?_⟩
  · apply map_eq_self_of
    intro row hrow
    rcases List.mem_map.mp hrow with ⟨t, ht, hrow'⟩
    have hlen : row.length = seq := by
      rw [← hrow', List.length_dropLast, hrect t ht]
      rfl
    rw [flatten_range_chunks row (seq / W) W, hws, ← hlen, List.take_length]
  · apply map_eq_self_of
    intro row hrow
    rcases List.mem_map.mp hrow with ⟨t, ht, hrow'⟩
    have hlen : row.length = seq := by
      rw [← hrow', List.length_range]
    rw [flatten_range_chunks row (seq / W) W, hws, ← hlen, List.take_length]

/-- Witness for `get_batch_rank_slice_reconstruct`, the spec scenario:
raw row `[1,2,3,4,5]`, so `tokens = [1,2,3,4]`, `seq = 4`, `W = 2`;
rank 0 receives columns `[1,2]` and concatenating the two rank slices
restores `[1,2,3,4]`. -/
theorem get_batch_rank_slice_reconstruct_witness :
    (1 ≤ 2 ∧ 0 < 2 ∧ 4 % 2 = 0 ∧ ([[1, 2, 3, 4, 5]] : Mat ℤ) ≠ []
      ∧ (∀ row ∈ ([[1, 2, 3, 4, 5]] : Mat ℤ), row.length = 4 + 1))
    ∧ (((get_batch ⟨false, 2, 0, 1, 0⟩ [[1, 2, 3, 4, 5]]).map (fun b => b.1)
         = some (sliceCols (0 * (4 / 2)) (4 / 2)
             (([[1, 2, 3, 4, 5]] : Mat ℤ).map (fun row => row.dropLast))))
       ∧ (((get_batch ⟨false, 2, 0, 1, 0⟩ [[1, 2, 3, 4, 5]]).map (fun b => b.2.2.2.2))
         = some (sliceCols (0 * (4 / 2)) (4 / 2)
             ((([[1, 2, 3, 4, 5]] : Mat ℤ).map (fun row => row.dropLast)).map
               (fun _ => List.range 4))))
       ∧ ((([[1, 2, 3, 4, 5]] : Mat ℤ).map (fun row => row.dropLast)).map
            (fun row => ((List.range 2).map
                (fun i => (row.drop (i * (4 / 2))).take (4 / 2))).flatten)
          = ([[1, 2, 3, 4, 5]] : Mat ℤ).map (fun row => row.dropLast))
       ∧ (((([[1, 2, 3, 4, 5]] : Mat ℤ).map (fun row => row.dropLast)).map
             (fun _ => List.range 4)).map
            (fun row => ((List.range 2).map
                (fun i => (row.drop (i * (4 / 2))).take (4 / 2))).flatten)
          = (([[1, 2, 3, 4, 5]] : Mat ℤ).map (fun row => row.dropLast)).map
              (fun _ => List.range 4))) :=
  ⟨⟨by decide, by decide, by decide, by decide, by decide⟩,
   get_batch_rank_slice_reconstruct 2 0 4 1 0 [[1, 2, 3, 4, 5]]
     (by decide) (by decide) (by decide) (by decide) (by decide)⟩

/-! ## C7: labels keep full width except in the dedicated mode -/

/-- C7: `get_batch` slices `labels` to the rank's sequence sub-range
exactly when the dedicated sequence-parallel group has size greater
than 1; with the alternate tensor-parallel-based sequence parallelism
(`sequence_parallel` set, dedicated size 1) `tokens` and
`position_ids` are sliced but `labels` keeps the full sequence width. -/
theorem get_batch_labels_slicing (a : SeqParArgs) (seq : ℕ)
    (tokens_ : Mat ℤ) (hne : tokens_ ≠ [])
    (hrect : ∀ row ∈ tokens_, row.length = seq + 1)
    (hmod : seq % a.effWorldSize = 0) :
    ((get_batch a tokens_).map (fun b => b.2.1)
       = some (if 1 < a.dsWorldSize then
           sliceCols (a.effRank * (seq / a.effWorldSize)) (seq / a.effWorldSize)
             (tokens_.map (fun row => row.drop 1))
         else tokens_.map (fun row => row.drop 1)))
    ∧ (a.dsWorldSize ≤ 1 →
        (get_batch a tokens_).map (fun b => b.2.1)
          = some (tokens_.map (fun row => row.drop 1)))
    ∧ ((get_batch a tokens_).map (fun b => b.1)
       = some (sliceCols (a.effRank * (seq / a.effWorldSize)) (seq / a.effWorldSize)
           (tokens_.map (fun row => row.dropLast))))
    ∧ ((get_batch a tokens_).map (fun b => b.2.2.2.2)
       = some (sliceCols (a.effRank * (seq / a.effWorldSize)) (seq / a.effWorldSize)
           ((tokens_.map (fun row => row.dropLast)).map (fun _ => List.range seq)))) := by
  have hb := get_batch_eq_some a seq tokens_ hne hrect hmod
  refine ⟨by rw [hb]; rfl, ?_, by rw [hb]; rfl, by rw [hb]; rfl⟩
  intro h
  rw [hb, if_neg (Nat.not_lt.mpr h)]
  rfl

/-- Witness for `get_batch_labels_slicing`: `sequence_parallel` set
with a dedicated group of size 1 and tensor-parallel size 2, rank 1 —
tokens are sliced to `[3,4]` while labels keep the full width
`[2,3,4,5]`. -/
theorem get_batch_labels_slicing_witness :
    (([[1, 2, 3, 4, 5]] : Mat ℤ) ≠ []
      ∧ (∀ row ∈ ([[1, 2, 3, 4, 5]] : Mat ℤ), row.length = 4 + 1)
      ∧ 4 % (⟨true, 1, 0, 2, 1⟩ : SeqParArgs).effWorldSize = 0)
    ∧ (((get_batch ⟨true, 1, 0, 2, 1⟩ [[1, 2, 3, 4, 5]]).map (fun b => b.2.1)
         = some (if 1 < (⟨true, 1, 0, 2, 1⟩ : SeqParArgs).dsWorldSize then
             sliceCols ((⟨true, 1, 0, 2, 1⟩ : SeqParArgs).effRank
                 * (4 / (⟨true, 1, 0, 2, 1⟩ : SeqParArgs).effWorldSize))
               (4 / (⟨true, 1, 0, 2, 1⟩ : SeqParArgs).effWorldSize)
               (([[1, 2, 3, 4, 5]] : Mat ℤ).map (fun row => row.drop 1))
           else ([[1, 2, 3, 4, 5]] : Mat ℤ).map (fun row => row.drop 1)))
       ∧ ((⟨true, 1, 0, 2, 1⟩ : SeqParArgs).dsWorldSize ≤ 1 →
           (get_batch ⟨true, 1, 0, 2, 1⟩ [[1, 2, 3, 4, 5]]).map (fun b => b.2.1)
             = some (([[1, 2, 3, 4, 5]] : Mat ℤ).map (fun row => row.drop 1)))
       ∧ ((get_batch ⟨true, 1, 0, 2, 1⟩ [[1, 2, 3, 4, 5]]).map (fun b => b.1)
         = some (sliceCols ((⟨true, 1, 0, 2, 1⟩ : SeqParArgs).effRank
               * (4 / (⟨true, 1, 0, 2, 1⟩ : SeqParArgs).effWorldSize))
             (4 / (⟨true, 1, 0, 2, 1⟩ : SeqParArgs).effWorldSize)
             (([[1, 2, 3, 4, 5]] : Mat ℤ).map (fun row => row.dropLast))))
       ∧ ((get_batch ⟨true, 1, 0, 2, 1⟩ [[1, 2, 3, 4, 5]]).map (fun b => b.2.2.2.2)
         = some (sliceCols ((⟨true, 1, 0, 2, 1⟩ : SeqParArgs).effRank
               * (4 / (⟨true, 1, 0, 2, 1⟩ : SeqParArgs).effWorldSize))
             (4 / (⟨true, 1, 0, 2, 1⟩ : SeqParArgs).effWorldSize)
             ((([[1, 2, 3, 4, 5]] : Mat ℤ).map (fun row => row.dropLast)).map
               (fun _ => List.range 4))))) :=
  ⟨⟨by decide, by decide, by decide⟩,
   get_batch_labels_slicing ⟨true, 1, 0, 2, 1⟩ 4 [[1, 2, 3, 4, 5]]
     (by decide) (by decide) (by decide)⟩

/-- Witness for `data_post_process_reshape_shape`: two raw rows of
width 5 with `seq_length = 4`, `current_seqlen = 2`. -/
theorem data_post_process_reshape_shape_witness :
    (2 < 4 ∧ (∀ row ∈ ([[0, 1, 2, 3, 4], [5, 6, 7, 8, 9]] : Mat ℤ), row.length = 4 + 1))
    ∧ ((∀ row ∈ data_post_process_reshape 4 2 [[0, 1, 2, 3, 4], [5, 6, 7, 8, 9]],
         row.length = 2 + 1)
       ∧ (1 < (data_post_process_reshape 4 2 [[0, 1, 2, 3, 4], [5, 6, 7, 8, 9]]).length →
          (data_post_process_reshape 4 2 [[0, 1, 2, 3, 4], [5, 6, 7, 8, 9]]).length % 2 = 0)
       ∧ ((data_post_process_reshape 4 2 [[0, 1, 2, 3, 4], [5, 6, 7, 8, 9]]).map
             List.length).sum
           < (([[0, 1, 2, 3, 4], [5, 6, 7, 8, 9]] : Mat ℤ).map List.length).sum + (2 + 1)) :=
  ⟨⟨by decide, by decide⟩,
   data_post_process_reshape_shape 4 2 [[0, 1, 2, 3, 4], [5, 6, 7, 8, 9]]
     (by decide) (by decide)⟩

/-! ## C6: consistent legacy-curriculum truncation at all three sites -/

/-- Rows of a column-truncated matrix all have exactly the truncation
width when every original row is at least that wide. -/
theorem mem_map_take_length {α : Type} (m : Mat α) (cs bound : ℕ)
    (hb : cs ≤ bound) (h : ∀ row ∈ m, bound ≤ row.length) :
    ∀ row ∈ m.map (List.take cs), row.length = cs := by
  intro row hrow
  rcases List.mem_map.mp hrow with ⟨r, hr, hrow'⟩
  have := h r hr
  rw [← hrow', List.length_take]
  omega

/-- C6: with the legacy curriculum flag active and `curriculum_seqlen`
below the configured sequence length, the loss mask consumed by
`forward_step`, the labels consumed by its distillation branch, the
tokens, position ids and attention mask consumed by
`calculate_mos_loss` (the attention mask truncated on both of its last
two axes), and the tokens, position ids, labels and loss mask produced
by `get_batch_pipe` are all truncated to the same `curriculum_seqlen`
columns within the step. -/
theorem curriculum_truncation_consistent (mos kd : Bool)
    (curriculum_seqlen seq_length : ℕ) (loss_mask : Mat ℚ) (labels : Mat ℤ)
    (tokens : Mat ℤ) (position_ids : Mat ℕ) (attention_mask : Mat Bool)
    (tokens_ : Mat ℤ)
    (hcs : curriculum_seqlen < seq_length)
    (hlm : ∀ row ∈ loss_mask, seq_length ≤ row.length)
    (hlab : ∀ row ∈ labels, seq_length ≤ row.length)
    (htok : ∀ row ∈ tokens, seq_length ≤ row.length)
    (hpos : ∀ row ∈ position_ids, seq_length ≤ row.length)
    (hattn : seq_length ≤ attention_mask.length)
    (hattnr : ∀ row ∈ attention_mask, seq_length ≤ row.length)
    (hraw : ∀ row ∈ tokens_, row.length = seq_length + 1) :
    (∀ row ∈ forward_step_loss_mask true curriculum_seqlen seq_length loss_mask,
       row.length = curriculum_seqlen)
    ∧ ((mos = true ∨ kd = true) →
       ∀ row ∈ forward_step_labels mos kd true curriculum_seqlen seq_length labels,
         row.length = curriculum_seqlen)
    ∧ (∀ row ∈ (calculate_mos_loss_inputs true curriculum_seqlen seq_length
          tokens position_ids attention_mask).1, row.length = curriculum_seqlen)
    ∧ (∀ row ∈ (calculate_mos_loss_inputs true curriculum_seqlen seq_length
          tokens position_ids attention_mask).2.1, row.length = curriculum_seqlen)
    ∧ ((calculate_mos_loss_inputs true curriculum_seqlen seq_length
          tokens position_ids attention_mask).2.2.length = curriculum_seqlen)
    ∧ (∀ row ∈ (calculate_mos_loss_inputs true curriculum_seqlen seq_length
          tokens position_ids attention_mask).2.2, row.length = curriculum_seqlen)
    ∧ (∀ row ∈ (get_batch_pipe true curriculum_seqlen tokens_).1.1,
       row.length = curriculum_seqlen)
    ∧ (∀ row ∈ (get_batch_pipe true curriculum_seqlen tokens_).1.2.1,
       row.length = curriculum_seqlen)
    ∧ (∀ row ∈ (get_batch_pipe true curriculum_seqlen tokens_).2.1,
       row.length = curriculum_seqlen)
    ∧ (∀ row ∈ (get_batch_pipe true curriculum_seqlen tokens_).2.2,
       row.length = curriculum_seqlen) := by
  have hcs' : curriculum_seqlen ≤ seq_length := le_of_lt hcs
  have hcm : calculate_mos_loss_inputs true curriculum_seqlen seq_length
      tokens position_ids attention_mask
      = (tokens.map (List.take curriculum_seqlen),
         position_ids.map (List.take curriculum_seqlen),
         (attention_mask.take curriculum_seqlen).map (List.take curriculum_seqlen)) := by
    rw [calculate_mos_loss_inputs, if_pos ⟨by trivial, hcs⟩]
  have hfs : forward_step_loss_mask true curriculum_seqlen seq_length loss_mask
      = loss_mask.map (List.take curriculum_seqlen) := by
    rw [forward_step_loss_mask, if_pos ⟨by trivial, hcs⟩]
  have hpipe :
      (∀ row ∈ (get_batch_pipe true curriculum_seqlen tokens_).1.1,
         row.length = curriculum_seqlen)
      ∧ (∀ row ∈ (get_batch_pipe true curriculum_seqlen tokens_).1.2.1,
         row.length = curriculum_seqlen)
      ∧ (∀ row ∈ (get_batch_pipe true curriculum_seqlen tokens_).2.1,
         row.length = curriculum_seqlen)
      ∧ (∀ row ∈ (get_batch_pipe true curriculum_seqlen tokens_).2.2,
         row.length = curriculum_seqlen) := by
    cases tokens_ with
    | nil =>
      refine ⟨?_, ?_, ?_, ?_⟩ <;>
        · intro row hrow
          simp [get_batch_pipe, get_ltor_masks_and_position_ids] at hrow
    | cons t ts =>
      have hhead : (((t :: ts).map (fun row => row.dropLast)).headD []).length
          = seq_length := by
        have ht := hraw t (by simp)
        simp [List.length_dropLast, ht]
      have hgbp : get_batch_pipe true curriculum_seqlen (t :: ts)
          = ((((t :: ts).map (fun row => row.dropLast)).map (List.take curriculum_seqlen),
              (((t :: ts).map (fun row => row.dropLast)).map
                (fun _ => List.range seq_length)).map (List.take curriculum_seqlen),
              (List.range seq_length).map
                (fun i => (List.range seq_length).map (fun j => decide (i < j)))),
             (((t :: ts).map (fun row => row.drop 1)).map (List.take curriculum_seqlen),
              (((t :: ts).map (fun row => row.dropLast)).map
                (fun row => row.map (fun _ => (1 : ℚ)))).map (List.take curriculum_seqlen))) := by
        simp only [get_batch_pipe, get_ltor_masks_and_position_ids, hhead]
        rw [if_pos ⟨by trivial, hcs⟩]
      rw [hgbp]
      refine ⟨?_, ?_, ?_, ?_⟩
      · refine mem_map_take_length _ _ seq_length hcs' ?_
        intro row hrow
        rcases List.mem_map.mp hrow with ⟨r, hr, hrow'⟩
        have := hraw r hr
        rw [← hrow', List.length_dropLast]
        omega
      · refine mem_map_take_length _ _ seq_length hcs' ?_
        intro row hrow
        rcases List.mem_map.mp hrow with ⟨r, hr, hrow'⟩
        rw [← hrow', List.length_range]
      · refine mem_map_take_length _ _ seq_length hcs' ?_
        intro row hrow
        rcases List.mem_map.mp hrow with ⟨r, hr, hrow'⟩
        have := hraw r hr
        rw [← hrow', List.length_drop]
        omega
      · refine mem_map_take_length _ _ seq_length hcs' ?_
        intro row hrow
        rcases List.mem_map.mp hrow with ⟨r, hr, hrow'⟩
        rcases List.mem_map.mp hr with ⟨r0, hr0, hr'⟩
        have := hraw r0 hr0
        rw [← hrow', List.length_map, ← hr', List.length_dropLast]
        omega
  refine ⟨?_, ?_, ?_, ?_, ?_, ?_, hpipe.1, hpipe.2.1, hpipe.2.2.1, hpipe.2.2.2⟩
  · rw [hfs]
    exact mem_map_take_length _ _ seq_length hcs' hlm
  · intro hdist
    have hfl : forward_step_labels mos kd true curriculum_seqlen seq_length labels
        = labels.map (List.take curriculum_seqlen) := by
      rw [forward_step_labels, if_pos]
      refine ⟨?_, by trivial, hcs⟩
      rcases hdist with h | h <;> simp [h]
    rw [hfl]
    exact mem_map_take_length _ _ seq_length hcs' hlab
  · rw [hcm]
    exact mem_map_take_length _ _ seq_length hcs' htok
  · rw [hcm]
    exact mem_map_take_length _ _ seq_length hcs' hpos
  · rw [hcm]
    simp only [List.length_map, List.length_take]
    omega
  · rw [hcm]
    intro row hrow
    rcases List.mem_map.mp hrow with ⟨r, hr, hrow'⟩
    have hrm := hattnr r (List.mem_of_mem_take hr)
    rw [← hrow', List.length_take]
    omega

/-- Witness for `curriculum_truncation_consistent`:
`curriculum_seqlen = 1`, `seq_length = 2`, one-row inputs. -/
theorem curriculum_truncation_consistent_witness :
    (1 < 2
      ∧ (∀ row ∈ ([[1, 1]] : Mat ℚ), 2 ≤ row.length)
      ∧ (∀ row ∈ ([[7, 8]] : Mat ℤ), 2 ≤ row.length)
      ∧ (∀ row ∈ ([[5, 6]] : Mat ℤ), 2 ≤ row.length)
      ∧ (∀ row ∈ ([[0, 1]] : Mat ℕ), 2 ≤ row.length)
      ∧ 2 ≤ ([[true, false], [false, true]] : Mat Bool).length
      ∧ (∀ row ∈ ([[true, false], [false, true]] : Mat Bool), 2 ≤ row.length)
      ∧ (∀ row ∈ ([[1, 2, 3]] : Mat ℤ), row.length = 2 + 1))
    ∧ ((∀ row ∈ forward_step_loss_mask true 1 2 [[1, 1]], row.length = 1)
       ∧ ((true = true ∨ false = true) →
          ∀ row ∈ forward_step_labels true false true 1 2 [[7, 8]], row.length = 1)
       ∧ (∀ row ∈ (calculate_mos_loss_inputs true 1 2 [[5, 6]] [[0, 1]]
             [[true, false], [false, true]]).1, row.length = 1)
       ∧ (∀ row ∈ (calculate_mos_loss_inputs true 1 2 [[5, 6]] [[0, 1]]
             [[true, false], [false, true]]).2.1, row.length = 1)
       ∧ ((calculate_mos_loss_inputs true 1 2 [[5, 6]] [[0, 1]]
             [[true, false], [false, true]]).2.2.length = 1)
       ∧ (∀ row ∈ (calculate_mos_loss_inputs true 1 2 [[5, 6]] [[0, 1]]
             [[true, false], [false, true]]).2.2, row.length = 1)
       ∧ (∀ row ∈ (get_batch_pipe true 1 [[1, 2, 3]]).1.1, row.length = 1)
       ∧ (∀ row ∈ (get_batch_pipe true 1 [[1, 2, 3]]).1.2.1, row.length = 1)
       ∧ (∀ row ∈ (get_batch_pipe true 1 [[1, 2, 3]]).2.1, row.length = 1)
       ∧ (∀ row ∈ (get_batch_pipe true 1 [[1, 2, 3]]).2.2, row.length = 1)) :=
  ⟨⟨by decide, by decide, by decide, by decide, by decide, by decide, by decide, by decide⟩,
   curriculum_truncation_consistent true false 1 2 [[1, 1]] [[7, 8]] [[5, 6]] [[0, 1]]
     [[true, false], [false, true]] [[1, 2, 3]] (by decide) (by decide) (by decide)
     (by decide) (by decide) (by decide) (by decide) (by decide)⟩

/-! ## C8 and C1: the stage decomposition -/

/-- The new hidden state produced by one loop iteration of
`custom_forward` is the hidden state produced by the layer itself. -/
theorem layer_output_aux_fst {H M : Type} (l : TLayer H M) (x : H) (mask : M) :
    (layer_output_aux l x mask).1 = (l.apply x mask).1 := by
  rcases h : l.apply x mask with ⟨x', o⟩
  cases o <;> simp [layer_output_aux, h]

/-- The loop of `custom_forward` in accumulator-free form. -/
theorem custom_forward_foldl_eq {H M : Type} (attention_mask : M)
    (ls : List (TLayer H M)) :
    ∀ (x : H) (moe : List (Option ℚ)),
      ls.foldl (fun acc l =>
          let r := layer_output_aux l acc.1 attention_mask
          (r.1, acc.2 ++ [r.2])) (x, moe)
        = ((runLayers attention_mask ls x).1,
           moe ++ (runLayers attention_mask ls x).2) := by
  induction ls with
  | nil => intro x moe; simp [runLayers]
  | cons l ls ih =>
    intro x moe
    simp only [List.foldl_cons, runLayers]
    rw [ih]
    simp

/-- The layer loop of the monolithic forward in accumulator-free form. -/
theorem gpt_collect_foldl_eq {H M : Type} (attention_mask : M)
    (ls : List (TLayer H M)) :
    ∀ (x : H) (acc : List (Option ℚ)),
      ls.foldl (fun s l =>
          let p := l.apply s.1 attention_mask
          (p.1, s.2 ++ [p.2.join])) (x, acc)
        = ((collectLayers attention_mask ls x).1,
           acc ++ (collectLayers attention_mask ls x).2) := by
  induction ls with
  | nil => intro x acc; simp [collectLayers]
  | cons l ls ih =>
    intro x acc
    simp only [List.foldl_cons, collectLayers]
    rw [ih]
    simp

/-- One auxiliary-loss entry is appended per traversed layer. -/
theorem runLayers_length {H M : Type} (mask : M) (ls : List (TLayer H M)) :
    ∀ x : H, (runLayers mask ls x).2.length = ls.length := by
  induction ls with
  | nil => intro x; rfl
  | cons l ls ih =>
    intro x
    simp only [runLayers, List.length_cons]
    rw [ih]

/-- The staged and the monolithic layer loops thread the same hidden
state. -/
theorem runLayers_fst_eq_collect {H M : Type} (mask : M)
    (ls : List (TLayer H M)) :
    ∀ x : H, (runLayers mask ls x).1 = (collectLayers mask ls x).1 := by
  induction ls with
  | nil => intro x; rfl
  | cons l ls ih =>
    intro x
    simp only [runLayers, collectLayers]
    rw [layer_output_aux_fst]
    exact ih _

/-- The staged auxiliary-loss list (zero scalars substituted for
layers reporting nothing) and the monolithic one (null entries for
such layers) have the same non-null sum. -/
theorem runLayers_filter_sum_eq {H M : Type} (mask : M)
    (ls : List (TLayer H M)) :
    ∀ x : H,
      ((runLayers mask ls x).2.filterMap id).sum
        = ((collectLayers mask ls x).2.filterMap id).sum := by
  induction ls with
  | nil => intro x; rfl
  | cons l ls ih =>
    intro x
    simp only [runLayers, collectLayers]
    rcases h : l.apply x mask with ⟨x', o⟩
    have hfst : (layer_output_aux l x mask).1 = x' := by
      rw [layer_output_aux_fst, h]
    cases o with
    | none =>
      have hsnd : (layer_output_aux l x mask).2 = some 0 := by
        simp [layer_output_aux, h]
      simp [hfst, hsnd, h, ih x']
    | some aux =>
      have hsnd : (layer_output_aux l x mask).2 = aux := by
        simp [layer_output_aux, h]
      cases aux <;> simp [hfst, hsnd, h, ih x']

/-- C8: the callable returned by `custom_forward` over `[start,
endIdx)` extends the incoming auxiliary-loss list in place — its
result is the input list followed by the per-layer entries described
by `runLayers` (one entry per traversed layer in layer order, a
zero-valued scalar substituted when a layer reports no auxiliary
loss), so exactly `endIdx - start` entries are appended and no
pre-existing entry is removed or altered. -/
theorem custom_forward_extends_aux (H M : Type) (m : GPTModelM H M)
    (start endIdx : ℕ) (x : H) (moe_losses : List (Option ℚ)) (mask : M)
    (hrange : endIdx ≤ m.layers.length) :
    (custom_forward m start endIdx x moe_losses mask
       = ((runLayers mask ((m.layers.drop start).take (endIdx - start)) x).1,
          moe_losses
            ++ (runLayers mask ((m.layers.drop start).take (endIdx - start)) x).2))
    ∧ ((runLayers mask ((m.layers.drop start).take (endIdx - start)) x).2.length
        = endIdx - start)
    ∧ ((custom_forward m start endIdx x moe_losses mask).2.length
        = moe_losses.length + (endIdx - start)) := by
  have h1 : custom_forward m start endIdx x moe_losses mask
      = ((runLayers mask ((m.layers.drop start).take (endIdx - start)) x).1,
         moe_losses
           ++ (runLayers mask ((m.layers.drop start).take (endIdx - start)) x).2) :=
    custom_forward_foldl_eq mask ((m.layers.drop start).take (endIdx - start)) x moe_losses
  have h2 : ((m.layers.drop start).take (endIdx - start)).length = endIdx - start := by
    rw [List.length_take, List.length_drop]
    omega
  refine ⟨h1, ?_, ?_⟩
  · rw [runLayers_length, h2]
  · rw [h1]
    simp only [List.length_append]
    rw [runLayers_length, h2]

/-- Concrete three-layer instance of the model interface, used by the
witnesses: hidden states are rationals, the attention mask is trivial;
the first layer reports an auxiliary loss, the second returns a bare
tensor, the third returns a tuple with a null auxiliary loss. -/
def demoModel : GPTModelM ℚ Unit where
  embedding := fun t _ => (t.flatten.map (fun z => (z : ℚ))).sum
  layers :=
    [⟨fun x _ => (x + 1, some (some (1 / 2)))⟩,
     ⟨fun x _ => (x * 2, none)⟩,
     ⟨fun x _ => (x + 3, some none)⟩]
  final_layernorm := fun x => x + 5
  postLM := fun h l => [[h, (l.flatten.map (fun z => (z : ℚ))).sum]]

/-- Witness for `custom_forward_extends_aux` on `demoModel`, layer
range `[1, 3)`, one pre-existing auxiliary entry. -/
theorem custom_forward_extends_aux_witness :
    (3 ≤ demoModel.layers.length)
    ∧ ((custom_forward demoModel 1 3 10 [some 7] ()
         = ((runLayers () ((demoModel.layers.drop 1).take (3 - 1)) 10).1,
            [some 7] ++ (runLayers () ((demoModel.layers.drop 1).take (3 - 1)) 10).2))
       ∧ ((runLayers () ((demoModel.layers.drop 1).take (3 - 1)) 10).2.length = 3 - 1)
       ∧ ((custom_forward demoModel 1 3 10 [some 7] ()).2.length
           = List.length [some (7 : ℚ)] + (3 - 1))) :=
  ⟨by decide,
   custom_forward_extends_aux ℚ Unit demoModel 1 3 10 [some 7] () (by decide)⟩

/-- C1: composing the four decomposed stages — `pre_process_func`, the
callable returned by `custom_forward model 0 num_layers`,
`post_process_func`, and `flextrain_loss_func` — on a fixed
`(tokens, position_ids, attention_mask, labels, loss_mask)` tuple
produces exactly the total loss of the monolithic path (the model
called with labels by `forward_step`, followed by `loss_func`) on the
same inputs and model, in the basic (non-distillation,
legacy-curriculum-off) configuration that the FlexTrain path
supports. -/
theorem stage_decomposition_total_loss (H M : Type) (a : LossArgs)
    (legacy : Bool) (curriculum_seqlen seq_length : ℕ) (m : GPTModelM H M)
    (tokens : Mat ℤ) (position_ids : Mat ℕ) (attention_mask : M)
    (labels : Mat ℤ) (loss_mask : Mat ℚ)
    (hmos : a.mos = false) (hkd : a.kd = false) (hleg : legacy = false) :
    (flextrain_loss_func a
        (post_process_func m
          (custom_forward m 0 m.layers.length
            (pre_process_func m tokens position_ids attention_mask).1.1
            (pre_process_func m tokens position_ids attention_mask).1.2
            (pre_process_func m tokens position_ids attention_mask).2)
          labels)
        loss_mask).1
      = (forward_step_loss a legacy curriculum_seqlen seq_length m tokens
          position_ids attention_mask labels loss_mask).1 := by
  subst hleg
  have hsub : (m.layers.drop 0).take (m.layers.length - 0) = m.layers := by
    simp
  have hcf : custom_forward m 0 m.layers.length
      (m.embedding tokens position_ids) [] attention_mask
      = ((runLayers attention_mask ((m.layers.drop 0).take (m.layers.length - 0))
            (m.embedding tokens position_ids)).1,
         [] ++ (runLayers attention_mask ((m.layers.drop 0).take (m.layers.length - 0))
            (m.embedding tokens position_ids)).2) :=
    custom_forward_foldl_eq attention_mask
      ((m.layers.drop 0).take (m.layers.length - 0))
      (m.embedding tokens position_ids) []
  rw [hsub] at hcf
  simp only [List.nil_append] at hcf
  have hgm0 := gpt_collect_foldl_eq attention_mask m.layers
    (m.embedding tokens position_ids) []
  have hgm : gpt_model_forward m tokens position_ids attention_mask labels
      = (m.postLM (m.final_layernorm
            (collectLayers attention_mask m.layers
              (m.embedding tokens position_ids)).1) labels,
         [] ++ (collectLayers attention_mask m.layers
            (m.embedding tokens position_ids)).2) :=
    congrArg (fun r => (m.postLM (m.final_layernorm r.1) labels, r.2)) hgm0
  simp only [List.nil_append] at hgm
  simp only [pre_process_func]
  rw [hcf]
  simp only [post_process_func, flextrain_loss_func, forward_step_loss, hgm,
    forward_step_loss_mask, Bool.false_eq_true, false_and, if_false]
  rw [moe_collect_eq_filterMap, moe_collect_eq_filterMap]
  simp only [List.nil_append]
  rw [runLayers_fst_eq_collect, runLayers_filter_sum_eq]

/-- Witness for `stage_decomposition_total_loss` on `demoModel` with a
concrete batch. -/
theorem stage_decomposition_total_loss_witness :
    ((⟨false, false, 1, 1⟩ : LossArgs).mos = false
      ∧ (⟨false, false, 1, 1⟩ : LossArgs).kd = false
      ∧ (false : Bool) = false)
    ∧ (flextrain_loss_func ⟨false, false, 1, 1⟩
        (post_process_func demoModel
          (custom_forward demoModel 0 demoModel.layers.length
            (pre_process_func demoModel [[1, 2]] [[0, 1]] ()).1.1
            (pre_process_func demoModel [[1, 2]] [[0, 1]] ()).1.2
            (pre_process_func demoModel [[1, 2]] [[0, 1]] ()).2)
          [[2, 3]])
        [[1, 1]]).1
      = (forward_step_loss ⟨false, false, 1, 1⟩ false 0 0 demoModel
          [[1, 2]] [[0, 1]] () [[2, 3]] [[1, 1]]).1 :=
  ⟨⟨rfl, rfl, rfl⟩,
   stage_decomposition_total_loss ℚ Unit ⟨false, false, 1, 1⟩ false 0 0 demoModel
     [[1, 2]] [[0, 1]] () [[2, 3]] [[1, 1]] rfl rfl rfl⟩

end PretrainGpt
